import Mathlib

/-!
Verification of bradfitz/lesser (lesser.go): a runtime builder of a
less-than predicate for sort.Slice, driven by reflection over the slice
element type.

Shallow embedding conventions:
* Go float comparison semantics are modelled by `Flt`: a finite value is an
  exact rational (every finite IEEE value is rational and the code only
  compares, never computes), plus negative/positive infinity and a single
  NaN arm.  Go `==` on floats is `feq` (false when either side is NaN),
  Go `<` is `flt` (false when either side is NaN), `math.IsNaN` is `fIsNaN`.
* Go strings compare bytewise; a string value is a byte list `GoStr`,
  Go `<` on strings is `slt` and `==` is list equality.
* Raw memory is abstracted by `Mem`: one uninterpreted typed reader per
  dereference shape appearing in the source (`*(*bool)(p)`, `*(*int8)(p)`,
  ...).  An address is a `Nat`; `addr` mirrors the source's
  `addr0 + size*i + off` pointer arithmetic (Go's uintptr wraps at 2^64,
  unreachable for offsets of a real object, so plain `Nat` is used).
* The reflect.Type of the element is the descriptor `Ty`; reflect-provided
  metrics (field offsets, element sizes) are carried as descriptor data.
* The two `panic` sites of the source are the two error values of
  `BuildError` (`Of`'s "slice argument is not a slice" panic and
  `forAddr`'s "un-sortable type" panic), so the builder runs in `Except`.
-/

namespace Lesser

/-- Model of a Go floating point value as far as comparison is concerned:
one NaN arm (all Go NaNs behave identically under ==, < and IsNaN),
the two infinities, and exact finite values.  Signed zeros are merged,
which is exact for ==, < and IsNaN. -/
inductive Flt where
  | nan : Flt
  | ninf : Flt
  | fin (q : ℚ) : Flt
  | pinf : Flt
deriving DecidableEq

/-- Go `==` on floats: false whenever either operand is NaN. -/
def feq : Flt → Flt → Bool
  | .nan, _ => false
  | _, .nan => false
  | .ninf, .ninf => true
  | .pinf, .pinf => true
  | .fin a, .fin b => decide (a = b)
  | _, _ => false

/-- Go `<` on floats: false whenever either operand is NaN. -/
def flt : Flt → Flt → Bool
  | .nan, _ => false
  | _, .nan => false
  | .ninf, .ninf => false
  | .ninf, .fin _ => true
  | .ninf, .pinf => true
  | .fin _, .ninf => false
  | .fin a, .fin b => decide (a < b)
  | .fin _, .pinf => true
  | .pinf, _ => false

/-- Go `math.IsNaN` (and the source's `isNaN32`, which is `f != f`). -/
def fIsNaN : Flt → Bool
  | .nan => true
  | _ => false

/-- The expression `va < vb || math.IsNaN(va) && !math.IsNaN(vb)` from the
source's float comparators (Go `&&` binds tighter than `||`). -/
def fltOr (a b : Flt) : Bool :=
  flt a b || (fIsNaN a && !fIsNaN b)

/-- A Go string value, as its byte sequence. -/
def GoStr := List Nat
deriving DecidableEq

/-- Go `<` on strings: bytewise lexicographic order. -/
def slt : List Nat → List Nat → Bool
  | _, [] => false
  | [], _ :: _ => true
  | a :: as, b :: bs =>
    if a < b then true
    else if a = b then slt as bs
    else false

/-- Abstract memory: one uninterpreted typed reader per dereference shape
used by the source.  Readers are total functions of the byte address;
nothing relates readers of different types, which only widens the set of
memories the theorems cover. -/
structure Mem where
  readBool : Nat → Bool
  readInt : Nat → Int
  readInt8 : Nat → Int
  readInt16 : Nat → Int
  readInt32 : Nat → Int
  readInt64 : Nat → Int
  readUint : Nat → Nat
  readUint8 : Nat → Nat
  readUint16 : Nat → Nat
  readUint32 : Nat → Nat
  readUint64 : Nat → Nat
  readUintptr : Nat → Nat
  readFloat32 : Nat → Flt
  readFloat64 : Nat → Flt
  readString : Nat → List Nat

/-- Source `addr`: `unsafe.Pointer(uintptr(addr0) + size*uintptr(i) + off)`. -/
def addr (addr0 size off : Nat) (i : Nat) : Nat :=
  addr0 + size * i + off

/-- Source type `less`: `func(i, j int) bool`. -/
def Less := Nat → Nat → Bool

/-- The source's nil-able continuation convention:
`if optEq != nil { return optEq(i, j) }; return false`. -/
def optEval (optEq : Option Less) (i j : Nat) : Bool :=
  match optEq with
  | some f => f i j
  | none => false

/-- Source `lessBool`. -/
def lessBool (m : Mem) (addr0 size off : Nat) (optEq : Option Less) : Less :=
  fun i j =>
    let va := m.readBool (addr addr0 size off i)
    let vb := m.readBool (addr addr0 size off j)
    bif decide (va = vb) then optEval optEq i j else decide (va = false)

/-- Source `lessString`. -/
def lessString (m : Mem) (addr0 size off : Nat) (optEq : Option Less) : Less :=
  fun i j =>
    let va := m.readString (addr addr0 size off i)
    let vb := m.readString (addr addr0 size off j)
    bif decide (va = vb) then optEval optEq i j else slt va vb

/-- Source `lessInt`. -/
def lessInt (m : Mem) (addr0 size off : Nat) (optEq : Option Less) : Less :=
  fun i j =>
    let va := m.readInt (addr addr0 size off i)
    let vb := m.readInt (addr addr0 size off j)
    bif decide (va = vb) then optEval optEq i j else decide (va < vb)

/-- Source `lessInt8`. -/
def lessInt8 (m : Mem) (addr0 size off : Nat) (optEq : Option Less) : Less :=
  fun i j =>
    let va := m.readInt8 (addr addr0 size off i)
    let vb := m.readInt8 (addr addr0 size off j)
    bif decide (va = vb) then optEval optEq i j else decide (va < vb)

/-- Source `lessInt16`. -/
def lessInt16 (m : Mem) (addr0 size off : Nat) (optEq : Option Less) : Less :=
  fun i j =>
    let va := m.readInt16 (addr addr0 size off i)
    let vb := m.readInt16 (addr addr0 size off j)
    bif decide (va = vb) then optEval optEq i j else decide (va < vb)

/-- Source `lessInt32`. -/
def lessInt32 (m : Mem) (addr0 size off : Nat) (optEq : Option Less) : Less :=
  fun i j =>
    let va := m.readInt32 (addr addr0 size off i)
    let vb := m.readInt32 (addr addr0 size off j)
    bif decide (va = vb) then optEval optEq i j else decide (va < vb)

/-- Source `lessInt64`. -/
def lessInt64 (m : Mem) (addr0 size off : Nat) (optEq : Option Less) : Less :=
  fun i j =>
    let va := m.readInt64 (addr addr0 size off i)
    let vb := m.readInt64 (addr addr0 size off j)
    bif decide (va = vb) then optEval optEq i j else decide (va < vb)

/-- Source `lessUint`. -/
def lessUint (m : Mem) (addr0 size off : Nat) (optEq : Option Less) : Less :=
  fun i j =>
    let va := m.readUint (addr addr0 size off i)
    let vb := m.readUint (addr addr0 size off j)
    bif decide (va = vb) then optEval optEq i j else decide (va < vb)

/-- Source `lessUint8`. -/
def lessUint8 (m : Mem) (addr0 size off : Nat) (optEq : Option Less) : Less :=
  fun i j =>
    let va := m.readUint8 (addr addr0 size off i)
    let vb := m.readUint8 (addr addr0 size off j)
    bif decide (va = vb) then optEval optEq i j else decide (va < vb)

/-- Source `lessUint16`. -/
def lessUint16 (m : Mem) (addr0 size off : Nat) (optEq : Option Less) : Less :=
  fun i j =>
    let va := m.readUint16 (addr addr0 size off i)
    let vb := m.readUint16 (addr addr0 size off j)
    bif decide (va = vb) then optEval optEq i j else decide (va < vb)

/-- Source `lessUint32`. -/
def lessUint32 (m : Mem) (addr0 size off : Nat) (optEq : Option Less) : Less :=
  fun i j =>
    let va := m.readUint32 (addr addr0 size off i)
    let vb := m.readUint32 (addr addr0 size off j)
    bif decide (va = vb) then optEval optEq i j else decide (va < vb)

/-- Source `lessUint64`. -/
def lessUint64 (m : Mem) (addr0 size off : Nat) (optEq : Option Less) : Less :=
  fun i j =>
    let va := m.readUint64 (addr addr0 size off i)
    let vb := m.readUint64 (addr addr0 size off j)
    bif decide (va = vb) then optEval optEq i j else decide (va < vb)

/-- Source `lessUintptr` (also used for chan, func, map, pointer and raw
pointer kinds: comparison by opaque machine address). -/
def lessUintptr (m : Mem) (addr0 size off : Nat) (optEq : Option Less) : Less :=
  fun i j =>
    let va := m.readUintptr (addr addr0 size off i)
    let vb := m.readUintptr (addr addr0 size off j)
    bif decide (va = vb) then optEval optEq i j else decide (va < vb)

/-- Source `lessFloat32`: tie branch is guarded by Go float `==`
(`feq`), the strict branch is `va < vb || isNaN32(va) && !isNaN32(vb)`. -/
def lessFloat32 (m : Mem) (addr0 size off : Nat) (optEq : Option Less) : Less :=
  fun i j =>
    let va := m.readFloat32 (addr addr0 size off i)
    let vb := m.readFloat32 (addr addr0 size off j)
    bif feq va vb then optEval optEq i j else fltOr va vb

/-- Source `lessFloat64`. -/
def lessFloat64 (m : Mem) (addr0 size off : Nat) (optEq : Option Less) : Less :=
  fun i j =>
    let va := m.readFloat64 (addr addr0 size off i)
    let vb := m.readFloat64 (addr addr0 size off j)
    bif feq va vb then optEval optEq i j else fltOr va vb

/-- Source `lessComplex64`:
`lessFloat32(addr0, size, off, lessFloat32(addr0, size, off+4, optEq))`. -/
def lessComplex64 (m : Mem) (addr0 size off : Nat) (optEq : Option Less) : Less :=
  lessFloat32 m addr0 size off (some (lessFloat32 m addr0 size (off + 4) optEq))

/-- Source `lessComplex128`:
`lessFloat64(addr0, size, off, lessFloat64(addr0, size, off+8, optEq))`. -/
def lessComplex128 (m : Mem) (addr0 size off : Nat) (optEq : Option Less) : Less :=
  lessFloat64 m addr0 size off (some (lessFloat64 m addr0 size (off + 8) optEq))

mutual
/-- The element's reflect.Type, as the builder consumes it: the kind, plus
the reflect-provided metrics the source reads from it (`t.Len()` and
`t.Elem().Size()` for arrays, `t.Elem().Size()` for the slice argument,
`sf.Offset` per struct field).  `rawptr` is the reflect UnsafePointer kind. -/
inductive Ty where
  | bool : Ty
  | int : Ty
  | int8 : Ty
  | int16 : Ty
  | int32 : Ty
  | int64 : Ty
  | uint : Ty
  | uint8 : Ty
  | uint16 : Ty
  | uint32 : Ty
  | uint64 : Ty
  | uintptr : Ty
  | float32 : Ty
  | float64 : Ty
  | complex64 : Ty
  | complex128 : Ty
  | chan : Ty
  | func : Ty
  | map : Ty
  | ptr : Ty
  | rawptr : Ty
  | string : Ty
  | array (n : Nat) (elemSize : Nat) (elem : Ty) : Ty
  | struct (fields : Fields) : Ty
  | interface : Ty
  | slice (elemSize : Nat) (elem : Ty) : Ty

/-- The ordered field list of a struct type: each field's name (to detect
the blank identifier), its `sf.Offset`, and its type. -/
inductive Fields where
  | nil : Fields
  | cons (name : String) (off : Nat) (ty : Ty) (rest : Fields) : Fields
end

/-- The two panic sites of the source: `Of`'s "slice argument is not a
slice" and `forAddr`'s "un-sortable type %v" (reached exactly for the
interface and slice kinds, whose cases are TODO in the source). -/
inductive BuildError where
  | invalidArgument : BuildError
  | unsupportedType : BuildError
deriving DecidableEq

/-- The source's array loop in `forAddr`, abstracted over the recursive
call `f` (which receives the element index): `ret := optEq; for i :=
t.Len()-1; i >= 0; i-- { ret = f(i, ret) }`.  `arrLoop f fuel j k` is the
chain for indices `j, j+1, ..., j+fuel-1` bottoming out at `k`; the
innermost (last-built first, per the loop's downward order) index is the
highest one. -/
def arrLoop (f : Nat → Option Less → Except BuildError (Option Less)) :
    Nat → Nat → Option Less → Except BuildError (Option Less)
  | 0, _, k => .ok k
  | fuel + 1, j, k => do
    let ret ← arrLoop f fuel (j + 1) k
    f j ret

mutual
/-- Source `forAddr`.  Note the struct case passes `sf.Offset` and the
array case passes `et.Size()*i` as the new `off`, discarding the incoming
`off` exactly as the source does. -/
def forAddr (m : Mem) (addr0 size off : Nat) (t : Ty) (optEq : Option Less) :
    Except BuildError (Option Less) :=
  match t with
  | .bool => .ok (some (lessBool m addr0 size off optEq))
  | .int => .ok (some (lessInt m addr0 size off optEq))
  | .int8 => .ok (some (lessInt8 m addr0 size off optEq))
  | .int16 => .ok (some (lessInt16 m addr0 size off optEq))
  | .int32 => .ok (some (lessInt32 m addr0 size off optEq))
  | .int64 => .ok (some (lessInt64 m addr0 size off optEq))
  | .uint => .ok (some (lessUint m addr0 size off optEq))
  | .uint8 => .ok (some (lessUint8 m addr0 size off optEq))
  | .uint16 => .ok (some (lessUint16 m addr0 size off optEq))
  | .uint32 => .ok (some (lessUint32 m addr0 size off optEq))
  | .uint64 => .ok (some (lessUint64 m addr0 size off optEq))
  | .uintptr => .ok (some (lessUintptr m addr0 size off optEq))
  | .float32 => .ok (some (lessFloat32 m addr0 size off optEq))
  | .float64 => .ok (some (lessFloat64 m addr0 size off optEq))
  | .complex64 => .ok (some (lessComplex64 m addr0 size off optEq))
  | .complex128 => .ok (some (lessComplex128 m addr0 size off optEq))
  | .array n elemSize et => arrLoop (fun i ret => forAddr m addr0 size (elemSize * i) et ret) n 0 optEq
  | .chan => .ok (some (lessUintptr m addr0 size off optEq))
  | .func => .ok (some (lessUintptr m addr0 size off optEq))
  | .map => .ok (some (lessUintptr m addr0 size off optEq))
  | .ptr => .ok (some (lessUintptr m addr0 size off optEq))
  | .rawptr => .ok (some (lessUintptr m addr0 size off optEq))
  | .string => .ok (some (lessString m addr0 size off optEq))
  | .struct fs => forFields m addr0 size fs optEq
  | .interface => .error .unsupportedType
  | .slice _ _ => .error .unsupportedType
termination_by sizeOf t

/-- The struct case of source `forAddr`: walk fields from the back,
skipping blank-named fields, threading the tie-breaker chain. -/
def forFields (m : Mem) (addr0 size : Nat) (fs : Fields) (optEq : Option Less) :
    Except BuildError (Option Less) :=
  match fs with
  | .nil => .ok optEq
  | .cons name off ty rest => do
    let ret ← forFields m addr0 size rest optEq
    if name = "_" then .ok ret else forAddr m addr0 size off ty ret
termination_by sizeOf fs
end

/-- Source `Of`: check the argument is a slice, return a nil predicate for
an empty slice before taking element 0's address, else decompose the
element type with an empty continuation.  `none` is Go's nil `less`. -/
def Of (m : Mem) (addr0 : Nat) (t : Ty) (len : Nat) :
    Except BuildError (Option Less) :=
  match t with
  | .slice elemSize et =>
    if len = 0 then .ok none
    else forAddr m addr0 elemSize 0 et none
  | _ => .error .invalidArgument

/-- Which signed-integer reader a leaf uses. -/
inductive SIntK where
  | int | int8 | int16 | int32 | int64
deriving DecidableEq

/-- Which unsigned-integer reader a leaf uses (`uintptr` also serves the
chan, func, map, pointer and raw pointer kinds). -/
inductive UIntK where
  | uint | uint8 | uint16 | uint32 | uint64 | uintptr
deriving DecidableEq

/-- Dispatch to the signed reader named by `k`. -/
def readS (m : Mem) : SIntK → Nat → Int
  | .int => m.readInt
  | .int8 => m.readInt8
  | .int16 => m.readInt16
  | .int32 => m.readInt32
  | .int64 => m.readInt64

/-- Dispatch to the unsigned reader named by `k`. -/
def readU (m : Mem) : UIntK → Nat → Nat
  | .uint => m.readUint
  | .uint8 => m.readUint8
  | .uint16 => m.readUint16
  | .uint32 => m.readUint32
  | .uint64 => m.readUint64
  | .uintptr => m.readUintptr

/-- One primitively-comparable position inside an element: its kind and
its byte offset from the element base (a complex value contributes its two
float components as separate leaves, exactly as the source builds it). -/
inductive Leaf where
  | bool (off : Nat) : Leaf
  | sint (k : SIntK) (off : Nat) : Leaf
  | uns (k : UIntK) (off : Nat) : Leaf
  | f32 (off : Nat) : Leaf
  | f64 (off : Nat) : Leaf
  | str (off : Nat) : Leaf
deriving DecidableEq

/-- The tie test a leaf comparator performs between elements `i` and `j`
(the `va == vb` guard of the corresponding source comparator). -/
def leafEqb (m : Mem) (addr0 size : Nat) : Leaf → Nat → Nat → Bool
  | .bool off, i, j =>
    decide (m.readBool (addr addr0 size off i) = m.readBool (addr addr0 size off j))
  | .sint k off, i, j =>
    decide (readS m k (addr addr0 size off i) = readS m k (addr addr0 size off j))
  | .uns k off, i, j =>
    decide (readU m k (addr addr0 size off i) = readU m k (addr addr0 size off j))
  | .f32 off, i, j =>
    feq (m.readFloat32 (addr addr0 size off i)) (m.readFloat32 (addr addr0 size off j))
  | .f64 off, i, j =>
    feq (m.readFloat64 (addr addr0 size off i)) (m.readFloat64 (addr addr0 size off j))
  | .str off, i, j =>
    decide (m.readString (addr addr0 size off i) = m.readString (addr addr0 size off j))

/-- The strict result a leaf comparator returns when its tie test fails
(the final `return` of the corresponding source comparator). -/
def leafLtb (m : Mem) (addr0 size : Nat) : Leaf → Nat → Nat → Bool
  | .bool off, i, _ =>
    decide (m.readBool (addr addr0 size off i) = false)
  | .sint k off, i, j =>
    decide (readS m k (addr addr0 size off i) < readS m k (addr addr0 size off j))
  | .uns k off, i, j =>
    decide (readU m k (addr addr0 size off i) < readU m k (addr addr0 size off j))
  | .f32 off, i, j =>
    fltOr (m.readFloat32 (addr addr0 size off i)) (m.readFloat32 (addr addr0 size off j))
  | .f64 off, i, j =>
    fltOr (m.readFloat64 (addr addr0 size off i)) (m.readFloat64 (addr addr0 size off j))
  | .str off, i, j =>
    slt (m.readString (addr addr0 size off i)) (m.readString (addr addr0 size off j))

/-- Reference semantics of a comparator chain with empty final
continuation: consult leaves left to right, fall through on ties, return
not-less when all leaves tie. -/
def chainP (m : Mem) (addr0 size : Nat) : List Leaf → Nat → Nat → Bool
  | [], _, _ => false
  | ℓ :: L, i, j =>
    bif leafEqb m addr0 size ℓ i j then chainP m addr0 size L i j
    else leafLtb m addr0 size ℓ i j

/-- Reference semantics of a comparator chain threaded onto a nil-able
continuation, mirroring the closures the source builds: an empty chain is
the continuation itself (possibly nil). -/
def chainN (m : Mem) (addr0 size : Nat) : List Leaf → Option Less → Option Less
  | [], k => k
  | ℓ :: L, k =>
    some fun i j =>
      bif leafEqb m addr0 size ℓ i j then optEval (chainN m addr0 size L k) i j
      else leafLtb m addr0 size ℓ i j

/-- Array flattening helper: leaves of indices `j, ..., j+fuel-1` in index
order, with `g i` the leaves of element `i`. -/
def arrFlat (g : Nat → List Leaf) : Nat → Nat → List Leaf
  | 0, _ => []
  | fuel + 1, j => g j ++ arrFlat g fuel (j + 1)

mutual
/-- The leaves the source's `forAddr` actually compares for a type placed
at offset `off`, in consultation order.  The struct and array cases drop
the incoming `off`, mirroring the source. -/
def flatC (off : Nat) (t : Ty) : List Leaf :=
  match t with
  | .bool => [.bool off]
  | .int => [.sint .int off]
  | .int8 => [.sint .int8 off]
  | .int16 => [.sint .int16 off]
  | .int32 => [.sint .int32 off]
  | .int64 => [.sint .int64 off]
  | .uint => [.uns .uint off]
  | .uint8 => [.uns .uint8 off]
  | .uint16 => [.uns .uint16 off]
  | .uint32 => [.uns .uint32 off]
  | .uint64 => [.uns .uint64 off]
  | .uintptr => [.uns .uintptr off]
  | .float32 => [.f32 off]
  | .float64 => [.f64 off]
  | .complex64 => [.f32 off, .f32 (off + 4)]
  | .complex128 => [.f64 off, .f64 (off + 8)]
  | .array n elemSize et => arrFlat (fun i => flatC (elemSize * i) et) n 0
  | .chan => [.uns .uintptr off]
  | .func => [.uns .uintptr off]
  | .map => [.uns .uintptr off]
  | .ptr => [.uns .uintptr off]
  | .rawptr => [.uns .uintptr off]
  | .string => [.str off]
  | .struct fs => flatF fs
  | .interface => []
  | .slice _ _ => []
termination_by sizeOf t

/-- Leaves of a struct's fields in declaration order, blank fields
contributing none. -/
def flatF : Fields → List Leaf
  | .nil => []
  | .cons name off ty rest =>
    if name = "_" then flatF rest else flatC off ty ++ flatF rest
termination_by fs => sizeOf fs
end

mutual
/-- Whether decomposing `t` reaches an unorderable kind (interface or
nested slice), i.e. whether the source's `forAddr` panics on `t`.  A blank
struct field is skipped before recursion and a zero-length array's element
type is never visited, so neither can trigger the panic. -/
def hasUnsupported : Ty → Bool
  | .array n _ et => decide (n ≠ 0) && hasUnsupported et
  | .struct fs => fieldsHaveUnsupported fs
  | .interface => true
  | .slice _ _ => true
  | _ => false
termination_by t => sizeOf t

/-- Whether some non-blank field of the list reaches an unorderable kind. -/
def fieldsHaveUnsupported : Fields → Bool
  | .nil => false
  | .cons name _ ty rest =>
    if name = "_" then fieldsHaveUnsupported rest
    else hasUnsupported ty || fieldsHaveUnsupported rest
termination_by fs => sizeOf fs
end

/-- Invariant relating `forAddr` to the flattened leaf chain: on a type
with no reachable unsupported kind it returns exactly the chain of
`flatC`, otherwise it fails with the unsupported-type panic. -/
def GoodT (t : Ty) : Prop :=
  ∀ m a0 s off k,
    (hasUnsupported t = true →
      forAddr m a0 s off t k = .error .unsupportedType) ∧
    (hasUnsupported t = false →
      forAddr m a0 s off t k = .ok (chainN m a0 s (flatC off t) k))

/-- Companion invariant for `forFields`. -/
def GoodF (fs : Fields) : Prop :=
  ∀ m a0 s k,
    (fieldsHaveUnsupported fs = true →
      forFields m a0 s fs k = .error .unsupportedType) ∧
    (fieldsHaveUnsupported fs = false →
      forFields m a0 s fs k = .ok (chainN m a0 s (flatF fs) k))

/-- Whether a reflect kind is Slice, i.e. whether `Of`'s argument check
`t.Kind() != reflect.Slice` passes. -/
def isSliceTy : Ty → Bool
  | .slice _ _ => true
  | _ => false

/-- All-zero memory, used as the base of the concrete test memories. -/
def mem0 : Mem where
  readBool := fun _ => false
  readInt := fun _ => 0
  readInt8 := fun _ => 0
  readInt16 := fun _ => 0
  readInt32 := fun _ => 0
  readInt64 := fun _ => 0
  readUint := fun _ => 0
  readUint8 := fun _ => 0
  readUint16 := fun _ => 0
  readUint32 := fun _ => 0
  readUint64 := fun _ => 0
  readUintptr := fun _ => 0
  readFloat32 := fun _ => .fin 0
  readFloat64 := fun _ => .fin 0
  readString := fun _ => []

/-- Memory for a 2-element slice of struct(F float64; B int64), element
size 16: both F fields NaN, B fields 2 and 1. -/
def mC1 : Mem :=
  { mem0 with
    readFloat64 := fun _ => .nan
    readInt64 := fun a => if a = 8 then 2 else if a = 24 then 1 else 0 }

/-- Descriptor of struct(F float64 at 0; B int64 at 8). -/
def tyC1 : Ty := .struct (.cons "F" 0 .float64 (.cons "B" 8 .int64 .nil))

/-- The chain the source builds for `tyC1` over `mC1`. -/
def pC1 : Less := lessFloat64 mC1 0 16 0 (some (lessInt64 mC1 0 16 8 none))

/-- Memory for float leaves of stride 8 at offset 0: element 0 reads NaN,
element 1 reads 1.0, element 2 reads NaN (same for the float32 reader). -/
def mC1W : Mem :=
  { mem0 with
    readFloat64 := fun a => if a = 8 then .fin 1 else .nan
    readFloat32 := fun a => if a = 8 then .fin 1 else .nan }

/-- Memory for a 2-element slice of struct(A int64; B struct(C int64)),
element size 16: A fields both 5, nested C fields 1 and 2. -/
def mC2 : Mem :=
  { mem0 with
    readInt64 := fun a => if a = 8 then 1 else if a = 24 then 2 else 5 }

/-- Descriptor of struct(A int64 at 0; B struct(C int64 at 0) at 8): a
record containing a record. -/
def tyC2 : Ty :=
  .struct (.cons "A" 0 .int64 (.cons "B" 8 (.struct (.cons "C" 0 .int64 .nil)) .nil))

/-- The chain the source builds for `tyC2` over `mC2`: both leaves read
offset 0, because the struct case of `forAddr` drops the incoming `off`. -/
def pC2 : Less := lessInt64 mC2 0 16 0 (some (lessInt64 mC2 0 16 0 none))

/-- The leaf paths the specification's depth-first flattening assigns to
`tyC2`: A at offset 0, then C at offset 8 + 0 (sum of the offsets along
its path). -/
def refC2 : List Leaf := [.sint .int64 0, .sint .int64 (8 + 0)]

/-- Memory for a 2-element slice of struct(A string; B int), element size
16: both A fields the byte string "x", B fields 2 and 1. -/
def mC4 : Mem :=
  { mem0 with
    readString := fun _ => [120]
    readInt := fun a => if a = 8 then 2 else if a = 24 then 1 else 0 }

/-- The chain the source builds for struct(A string at 0; B int at 8) over
`mC4`. -/
def pC4 : Less := lessString mC4 0 16 0 (some (lessInt mC4 0 16 8 none))

/-- Memory for a 2-element slice of struct(A int64; B struct(C int64)),
element size 16: A fields both 5 (equal), nested C fields 1 and 2 (so the
B values differ and ordering by B puts element 0 first). -/
def mC4b : Mem :=
  { mem0 with
    readInt64 := fun a => if a = 8 then 1 else if a = 24 then 2 else 5 }

/-- Descriptor of struct(A int64 at 0; B struct(C int64 at 0) at 8): a
two-field record whose second field is itself a record. -/
def tyC4b : Ty :=
  .struct (.cons "A" 0 .int64 (.cons "B" 8 (.struct (.cons "C" 0 .int64 .nil)) .nil))

/-- The chain the source builds for `tyC4b` over `mC4b`: both leaves read
offset 0 because the struct case of `forAddr` drops the incoming `off`. -/
def pC4b : Less := lessInt64 mC4b 0 16 0 (some (lessInt64 mC4b 0 16 0 none))

/-- Memory for a 2-element slice of struct(A float64; B int64), element
size 16: both A fields NaN, B fields 2 and 1 (so ordering by B puts
element 1 first). -/
def mC4n : Mem :=
  { mem0 with
    readFloat64 := fun _ => .nan
    readInt64 := fun a => if a = 8 then 2 else if a = 24 then 1 else 0 }

/-- Descriptor of struct(A float64 at 0; B int64 at 8). -/
def tyC4n : Ty := .struct (.cons "A" 0 .float64 (.cons "B" 8 .int64 .nil))

/-- The chain the source builds for `tyC4n` over `mC4n`. -/
def pC4n : Less := lessFloat64 mC4n 0 16 0 (some (lessInt64 mC4n 0 16 8 none))

/-- Memory for a 2-element slice of struct(A int32; _ int32; B int32),
element size 12: elements (A=1, _=0, B=2) and (A=1, _=99, B=2). -/
def mC5 : Mem :=
  { mem0 with
    readInt32 := fun a =>
      if a = 0 then 1 else if a = 4 then 0 else if a = 8 then 2
      else if a = 12 then 1 else if a = 16 then 99 else if a = 20 then 2 else 0 }

/-- Descriptor of struct(A int32 at 0; blank int32 at 4; B int32 at 8). -/
def tyC5 : Ty :=
  .struct (.cons "A" 0 .int32 (.cons "_" 4 .int32 (.cons "B" 8 .int32 .nil)))

/-- The chain the source builds for `tyC5` over `mC5`: A then B, no leaf
for the blank field. -/
def pC5 : Less := lessInt32 mC5 0 12 0 (some (lessInt32 mC5 0 12 8 none))

/-- Memory for a 4-element slice of complex128 (stride 16, real at +0,
imaginary at +8) holding 1+2i, 2+1i, 1+1i, 2+2i; the float32 reader holds
a 2-element complex64 slice (stride 8) with 1+2i, 1+1i. -/
def mC6 : Mem :=
  { mem0 with
    readFloat64 := fun a =>
      if a = 0 then .fin 1 else if a = 8 then .fin 2
      else if a = 16 then .fin 2 else if a = 24 then .fin 1
      else if a = 32 then .fin 1 else if a = 40 then .fin 1
      else .fin 2
    readFloat32 := fun a =>
      if a = 0 then .fin 1 else if a = 4 then .fin 2 else .fin 1 }

/-- Memory for a 5-element slice of bool (stride 1) holding
[false, true, false, false, true]. -/
def mC8 : Mem :=
  { mem0 with readBool := fun a => if a = 1 then true else if a = 4 then true else false }

/-- Memory for a 2-element slice of int (stride 8) holding [0, 1]. -/
def mC9 : Mem :=
  { mem0 with readInt := fun a => if a = 0 then 0 else 1 }

/-- The chain the source builds for an int slice over `mC9`. -/
def pC9 : Less := lessInt mC9 0 8 0 none

/-- Memory for a 5-element slice of int (stride 8) holding
[0, 1, 2, 2, 2]. -/
def mC10 : Mem :=
  { mem0 with readInt := fun a => if a = 0 then 0 else if a = 8 then 1 else 2 }

/-- The chain the source builds for an int slice over `mC10`. -/
def pC10 : Less := lessInt mC10 0 8 0 none

-- DEFS-END

theorem decide_eq_comm {α : Type _} [DecidableEq α] (a b : α) :
    decide (a = b) = decide (b = a) := by
  by_cases h : a = b
  · subst h; rfl
  · simp [h, Ne.symm h]

theorem feq_eq {a b : Flt} (h : feq a b = true) : a = b := by
  cases a <;> cases b <;> simp_all [feq]

theorem feq_symm (a b : Flt) : feq a b = feq b a := by
  cases a <;> cases b <;> simp [feq, eq_comm]

theorem feq_self_false {a : Flt} (h : feq a a = false) : a = .nan := by
  cases a <;> simp_all [feq]

theorem fltOr_self (a : Flt) : fltOr a a = false := by
  cases a <;> simp [fltOr, flt, fIsNaN]

theorem fltOr_asymm {a b : Flt} (h : fltOr a b = true) : fltOr b a = false := by
  cases a <;> cases b <;> simp_all [fltOr, flt, fIsNaN]
  linarith

theorem fltOr_trans {a b c : Flt} (h1 : fltOr a b = true) (h2 : fltOr b c = true) :
    fltOr a c = true ∧ feq a c = false := by
  cases a <;> cases b <;> cases c <;> simp_all [fltOr, flt, fIsNaN, feq]
  exact ⟨by linarith, by intro he; subst he; linarith⟩

theorem fltOr_absorb {a b : Flt} (he : feq a b = false) (h1 : fltOr a b = false)
    (h2 : fltOr b a = false) : a = .nan ∧ b = .nan := by
  cases a <;> cases b <;> simp_all [feq, fltOr, flt, fIsNaN]
  exact he (le_antisymm (by linarith) (by linarith))

theorem slt_irrefl (a : List Nat) : slt a a = false := by
  induction a with
  | nil => rfl
  | cons x xs ih => simp [slt, ih]

theorem slt_ne {a b : List Nat} (h : slt a b = true) : a ≠ b := by
  intro he; subst he; rw [slt_irrefl a] at h; exact Bool.false_ne_true h

theorem slt_asymm {a : List Nat} : ∀ {b : List Nat}, slt a b = true → slt b a = false := by
  induction a with
  | nil =>
    intro b h
    cases b with
    | nil => rfl
    | cons y ys => rfl
  | cons x xs ih =>
    intro b h
    cases b with
    | nil => simp [slt] at h
    | cons y ys =>
      rw [slt] at h ⊢
      by_cases hxy : x < y
      · rw [if_neg (by omega), if_neg (by omega)]
      · rw [if_neg hxy] at h
        by_cases hxe : x = y
        · rw [if_pos hxe] at h
          subst hxe
          rw [if_neg (by omega), if_pos rfl]
          exact ih h
        · rw [if_neg hxe] at h
          exact absurd h (by simp)

theorem slt_trans {a : List Nat} : ∀ {b c : List Nat},
    slt a b = true → slt b c = true → slt a c = true := by
  induction a with
  | nil =>
    intro b c h1 h2
    cases b with
    | nil => exact h2
    | cons y ys =>
      cases c with
      | nil => simp [slt] at h2
      | cons z zs => rfl
  | cons x xs ih =>
    intro b c h1 h2
    cases b with
    | nil => simp [slt] at h1
    | cons y ys =>
      cases c with
      | nil => simp [slt] at h2
      | cons z zs =>
        rw [slt] at h1 h2 ⊢
        by_cases hxy : x < y
        · have hyz : y ≤ z := by
            by_cases h' : y < z
            · omega
            · rw [if_neg h'] at h2
              by_cases h'' : y = z
              · omega
              · rw [if_neg h''] at h2; exact absurd h2 (by simp)
          rw [if_pos (by omega)]
        · rw [if_neg hxy] at h1
          by_cases hxe : x = y
          · rw [if_pos hxe] at h1
            subst hxe
            by_cases hxz : x < z
            · rw [if_pos hxz]
            · rw [if_neg hxz] at h2 ⊢
              by_cases hxez : x = z
              · rw [if_pos hxez] at h2 ⊢
                exact ih h1 h2
              · rw [if_neg hxez] at h2
                exact absurd h2 (by simp)
          · rw [if_neg hxe] at h1
            exact absurd h1 (by simp)

theorem slt_total {a : List Nat} : ∀ {b : List Nat},
    a ≠ b → slt a b = true ∨ slt b a = true := by
  induction a with
  | nil =>
    intro b h
    cases b with
    | nil => exact absurd rfl h
    | cons y ys => exact Or.inl rfl
  | cons x xs ih =>
    intro b h
    cases b with
    | nil => exact Or.inr rfl
    | cons y ys =>
      by_cases hxy : x < y
      · exact Or.inl (by rw [slt, if_pos hxy])
      · by_cases hyx : y < x
        · exact Or.inr (by rw [slt, if_pos hyx])
        · have hxe : x = y := by omega
          subst hxe
          have hne : xs ≠ ys := fun he => h (by rw [he])
          rcases ih hne with h' | h'
          · exact Or.inl (by rw [slt, if_neg (by omega), if_pos rfl]; exact h')
          · exact Or.inr (by rw [slt, if_neg (by omega), if_pos rfl]; exact h')

theorem optEval_some (f : Less) (i j : Nat) : optEval (some f) i j = f i j := rfl

theorem optEval_none (i j : Nat) : optEval none i j = false := rfl

theorem chainN_eval (m : Mem) (a0 s : Nat) (L : List Leaf) (i j : Nat) :
    optEval (chainN m a0 s L none) i j = chainP m a0 s L i j := by
  induction L with
  | nil => rfl
  | cons ℓ L ih =>
    simp only [chainN, optEval_some]
    cases h : leafEqb m a0 s ℓ i j <;> simp [chainP, h, ih]

theorem chainN_append (m : Mem) (a0 s : Nat) (L1 L2 : List Leaf) (k : Option Less) :
    chainN m a0 s (L1 ++ L2) k = chainN m a0 s L1 (chainN m a0 s L2 k) := by
  induction L1 with
  | nil => rfl
  | cons ℓ L ih => simp [chainN, ih]

theorem arrLoop_ok (m : Mem) (a0 s esz : Nat) (et : Ty) (hg : GoodT et)
    (hs : hasUnsupported et = false) :
    ∀ fuel j k, arrLoop (fun i ret => forAddr m a0 s (esz * i) et ret) fuel j k
      = .ok (chainN m a0 s (arrFlat (fun i => flatC (esz * i) et) fuel j) k) := by
  intro fuel
  induction fuel with
  | zero => intro j k; rfl
  | succ f ih =>
    intro j k
    simp only [arrLoop, arrFlat, ih, chainN_append]
    simp only [Bind.bind, Except.bind]
    exact (hg m a0 s (esz * j) (chainN m a0 s (arrFlat (fun i => flatC (esz * i) et) f (j + 1)) k)).2 hs

theorem arrLoop_err (m : Mem) (a0 s esz : Nat) (et : Ty) (hg : GoodT et)
    (hs : hasUnsupported et = true) :
    ∀ fuel j k, fuel ≠ 0 →
      arrLoop (fun i ret => forAddr m a0 s (esz * i) et ret) fuel j k
        = .error .unsupportedType := by
  intro fuel
  induction fuel with
  | zero => intro j k h; exact absurd rfl h
  | succ f ih =>
    intro j k _
    simp only [arrLoop, Bind.bind]
    by_cases hf : f = 0
    · subst hf
      simp only [arrLoop, Except.bind]
      exact (hg m a0 s (esz * j) k).1 hs
    · rw [ih (j + 1) k hf]
      rfl

theorem good_aux : ∀ fuel : Nat,
    (∀ t : Ty, sizeOf t ≤ fuel → GoodT t) ∧
    (∀ fs : Fields, sizeOf fs ≤ fuel → GoodF fs) := by
  intro fuel
  induction fuel with
  | zero =>
    constructor
    · intro t ht; exact absurd ht (by cases t <;> simp)
    · intro fs hfs; exact absurd hfs (by cases fs <;> simp)
  | succ n ih =>
    obtain ⟨ihT, ihF⟩ := ih
    constructor
    · intro t ht
      cases t with
      | bool => exact fun m a0 s off k => ⟨fun h => by simp [hasUnsupported] at h, fun _ => by rw [forAddr, flatC]; rfl⟩
      | int => exact fun m a0 s off k => ⟨fun h => by simp [hasUnsupported] at h, fun _ => by rw [forAddr, flatC]; rfl⟩
      | int8 => exact fun m a0 s off k => ⟨fun h => by simp [hasUnsupported] at h, fun _ => by rw [forAddr, flatC]; rfl⟩
      | int16 => exact fun m a0 s off k => ⟨fun h => by simp [hasUnsupported] at h, fun _ => by rw [forAddr, flatC]; rfl⟩
      | int32 => exact fun m a0 s off k => ⟨fun h => by simp [hasUnsupported] at h, fun _ => by rw [forAddr, flatC]; rfl⟩
      | int64 => exact fun m a0 s off k => ⟨fun h => by simp [hasUnsupported] at h, fun _ => by rw [forAddr, flatC]; rfl⟩
      | uint => exact fun m a0 s off k => ⟨fun h => by simp [hasUnsupported] at h, fun _ => by rw [forAddr, flatC]; rfl⟩
      | uint8 => exact fun m a0 s off k => ⟨fun h => by simp [hasUnsupported] at h, fun _ => by rw [forAddr, flatC]; rfl⟩
      | uint16 => exact fun m a0 s off k => ⟨fun h => by simp [hasUnsupported] at h, fun _ => by rw [forAddr, flatC]; rfl⟩
      | uint32 => exact fun m a0 s off k => ⟨fun h => by simp [hasUnsupported] at h, fun _ => by rw [forAddr, flatC]; rfl⟩
      | uint64 => exact fun m a0 s off k => ⟨fun h => by simp [hasUnsupported] at h, fun _ => by rw [forAddr, flatC]; rfl⟩
      | uintptr => exact fun m a0 s off k => ⟨fun h => by simp [hasUnsupported] at h, fun _ => by rw [forAddr, flatC]; rfl⟩
      | float32 => exact fun m a0 s off k => ⟨fun h => by simp [hasUnsupported] at h, fun _ => by rw [forAddr, flatC]; rfl⟩
      | float64 => exact fun m a0 s off k => ⟨fun h => by simp [hasUnsupported] at h, fun _ => by rw [forAddr, flatC]; rfl⟩
      | complex64 => exact fun m a0 s off k => ⟨fun h => by simp [hasUnsupported] at h, fun _ => by rw [forAddr, flatC]; rfl⟩
      | complex128 => exact fun m a0 s off k => ⟨fun h => by simp [hasUnsupported] at h, fun _ => by rw [forAddr, flatC]; rfl⟩
      | chan => exact fun m a0 s off k => ⟨fun h => by simp [hasUnsupported] at h, fun _ => by rw [forAddr, flatC]; rfl⟩
      | func => exact fun m a0 s off k => ⟨fun h => by simp [hasUnsupported] at h, fun _ => by rw [forAddr, flatC]; rfl⟩
      | map => exact fun m a0 s off k => ⟨fun h => by simp [hasUnsupported] at h, fun _ => by rw [forAddr, flatC]; rfl⟩
      | ptr => exact fun m a0 s off k => ⟨fun h => by simp [hasUnsupported] at h, fun _ => by rw [forAddr, flatC]; rfl⟩
      | rawptr => exact fun m a0 s off k => ⟨fun h => by simp [hasUnsupported] at h, fun _ => by rw [forAddr, flatC]; rfl⟩
      | string => exact fun m a0 s off k => ⟨fun h => by simp [hasUnsupported] at h, fun _ => by rw [forAddr, flatC]; rfl⟩
      | interface => exact fun m a0 s off k => ⟨fun _ => by rw [forAddr], fun h => by simp [hasUnsupported] at h⟩
      | slice esz et => exact fun m a0 s off k => ⟨fun _ => by rw [forAddr], fun h => by simp [hasUnsupported] at h⟩
      | array nn esz et =>
        have hT : GoodT et := by
          refine ihT et ?_
          have : sizeOf et < sizeOf (Ty.array nn esz et) := by simp
          omega
        intro m a0 s off k
        constructor
        · intro h
          rw [hasUnsupported] at h
          simp only [Bool.and_eq_true, decide_eq_true_eq] at h
          rw [forAddr]
          exact arrLoop_err m a0 s esz et hT h.2 nn 0 k h.1
        · intro h
          rw [hasUnsupported] at h
          simp only [Bool.and_eq_false_iff, decide_eq_false_iff_not, Decidable.not_not] at h
          rw [forAddr, flatC]
          rcases h with h | h
          · subst h; rfl
          · exact arrLoop_ok m a0 s esz et hT h nn 0 k
      | struct fs =>
        have hF : GoodF fs := by
          refine ihF fs ?_
          have : sizeOf fs < sizeOf (Ty.struct fs) := by simp
          omega
        intro m a0 s off k
        constructor
        · intro h
          rw [hasUnsupported] at h
          rw [forAddr]
          exact (hF m a0 s k).1 h
        · intro h
          rw [hasUnsupported] at h
          rw [forAddr, flatC]
          exact (hF m a0 s k).2 h
    · intro fs hfs
      cases fs with
      | nil =>
        intro m a0 s k
        exact ⟨fun h => by simp [fieldsHaveUnsupported] at h, fun _ => by rw [forFields, flatF]; rfl⟩
      | cons name off ty rest =>
        have hT : GoodT ty := by
          refine ihT ty ?_
          have : sizeOf ty < sizeOf (Fields.cons name off ty rest) := by simp; omega
          omega
        have hF : GoodF rest := by
          refine ihF rest ?_
          have : sizeOf rest < sizeOf (Fields.cons name off ty rest) := by simp
          omega
        intro m a0 s k
        by_cases hn : name = "_"
        · constructor
          · intro h
            rw [fieldsHaveUnsupported, if_pos hn] at h
            rw [forFields]
            simp only [Bind.bind]
            rw [(hF m a0 s k).1 h]
            rfl
          · intro h
            rw [fieldsHaveUnsupported, if_pos hn] at h
            rw [forFields, flatF, if_pos hn]
            simp only [Bind.bind]
            rw [(hF m a0 s k).2 h]
            simp [Except.bind, hn]
        · constructor
          · intro h
            rw [fieldsHaveUnsupported, if_neg hn] at h
            rw [forFields]
            simp only [Bind.bind]
            by_cases hr : fieldsHaveUnsupported rest = true
            · rw [(hF m a0 s k).1 hr]; rfl
            · have hr' : fieldsHaveUnsupported rest = false := by
                cases hx : fieldsHaveUnsupported rest
                · rfl
                · exact absurd hx hr
              have hty : hasUnsupported ty = true := by
                simp only [Bool.or_eq_true] at h
                rcases h with h | h
                · exact h
                · exact absurd h hr
              rw [(hF m a0 s k).2 hr']
              simp only [Except.bind, if_neg hn]
              exact (hT m a0 s off (chainN m a0 s (flatF rest) k)).1 hty
          · intro h
            rw [fieldsHaveUnsupported, if_neg hn] at h
            simp only [Bool.or_eq_false_iff] at h
            rw [forFields, flatF, if_neg hn]
            simp only [Bind.bind]
            rw [(hF m a0 s k).2 h.2]
            simp only [Except.bind, if_neg hn]
            rw [(hT m a0 s off (chainN m a0 s (flatF rest) k)).2 h.1, chainN_append]

/-- Every type descriptor satisfies the `forAddr` structure invariant. -/
theorem goodT (t : Ty) : GoodT t := (good_aux (sizeOf t)).1 t le_rfl

/-- Every field list satisfies the `forFields` structure invariant. -/
theorem goodF (fs : Fields) : GoodF fs := (good_aux (sizeOf fs)).2 fs le_rfl

theorem leaf_eqb_symm (m : Mem) (a0 s : Nat) (ℓ : Leaf) (i j : Nat) :
    leafEqb m a0 s ℓ i j = leafEqb m a0 s ℓ j i := by
  cases ℓ with
  | bool off => exact decide_eq_comm _ _
  | sint k off => exact decide_eq_comm _ _
  | uns k off => exact decide_eq_comm _ _
  | f32 off => exact feq_symm _ _
  | f64 off => exact feq_symm _ _
  | str off => exact decide_eq_comm _ _

theorem leaf_congr (m : Mem) (a0 s : Nat) (ℓ : Leaf) (i j : Nat)
    (h : leafEqb m a0 s ℓ i j = true) (w : Nat) :
    leafEqb m a0 s ℓ i w = leafEqb m a0 s ℓ j w ∧
    leafEqb m a0 s ℓ w i = leafEqb m a0 s ℓ w j ∧
    leafLtb m a0 s ℓ i w = leafLtb m a0 s ℓ j w ∧
    leafLtb m a0 s ℓ w i = leafLtb m a0 s ℓ w j := by
  cases ℓ with
  | bool off =>
    have h' : m.readBool (addr a0 s off i) = m.readBool (addr a0 s off j) :=
      of_decide_eq_true h
    simp [leafEqb, leafLtb, h']
  | sint k off =>
    have h' : readS m k (addr a0 s off i) = readS m k (addr a0 s off j) :=
      of_decide_eq_true h
    simp [leafEqb, leafLtb, h']
  | uns k off =>
    have h' : readU m k (addr a0 s off i) = readU m k (addr a0 s off j) :=
      of_decide_eq_true h
    simp [leafEqb, leafLtb, h']
  | f32 off =>
    have h' : m.readFloat32 (addr a0 s off i) = m.readFloat32 (addr a0 s off j) :=
      feq_eq h
    simp [leafEqb, leafLtb, h']
  | f64 off =>
    have h' : m.readFloat64 (addr a0 s off i) = m.readFloat64 (addr a0 s off j) :=
      feq_eq h
    simp [leafEqb, leafLtb, h']
  | str off =>
    have h' : m.readString (addr a0 s off i) = m.readString (addr a0 s off j) :=
      of_decide_eq_true h
    simp [leafEqb, leafLtb, h']

theorem leaf_ii (m : Mem) (a0 s : Nat) (ℓ : Leaf) (i : Nat)
    (h : leafEqb m a0 s ℓ i i = false) : leafLtb m a0 s ℓ i i = false := by
  cases ℓ with
  | bool off => simp [leafEqb] at h
  | sint k off => simp [leafEqb] at h
  | uns k off => simp [leafEqb] at h
  | f32 off => exact fltOr_self _
  | f64 off => exact fltOr_self _
  | str off => simp [leafEqb] at h

theorem leaf_asym (m : Mem) (a0 s : Nat) (ℓ : Leaf) (i j : Nat)
    (he : leafEqb m a0 s ℓ i j = false) (hl : leafLtb m a0 s ℓ i j = true) :
    leafLtb m a0 s ℓ j i = false := by
  cases ℓ with
  | bool off =>
    have he' : ¬m.readBool (addr a0 s off i) = m.readBool (addr a0 s off j) :=
      of_decide_eq_false he
    have hl' : m.readBool (addr a0 s off i) = false := of_decide_eq_true hl
    exact decide_eq_false fun hb => he' (hl'.trans hb.symm)
  | sint k off =>
    simp only [leafEqb, leafLtb, decide_eq_true_eq] at hl
    simp only [leafLtb, decide_eq_false_iff_not]
    exact asymm hl
  | uns k off =>
    simp only [leafEqb, leafLtb, decide_eq_true_eq] at hl
    simp only [leafLtb, decide_eq_false_iff_not]
    exact asymm hl
  | f32 off => exact fltOr_asymm hl
  | f64 off => exact fltOr_asymm hl
  | str off => exact slt_asymm hl

theorem leaf_lt_trans (m : Mem) (a0 s : Nat) (ℓ : Leaf) (i j k : Nat)
    (he1 : leafEqb m a0 s ℓ i j = false) (hl1 : leafLtb m a0 s ℓ i j = true)
    (he2 : leafEqb m a0 s ℓ j k = false) (hl2 : leafLtb m a0 s ℓ j k = true) :
    leafEqb m a0 s ℓ i k = false ∧ leafLtb m a0 s ℓ i k = true := by
  cases ℓ with
  | bool off =>
    simp only [leafEqb, leafLtb, decide_eq_false_iff_not, decide_eq_true_eq] at *
    exact absurd (hl1.trans hl2.symm) he1
  | sint k0 off =>
    simp only [leafEqb, leafLtb, decide_eq_false_iff_not, decide_eq_true_eq] at *
    exact ⟨ne_of_lt (lt_trans hl1 hl2), lt_trans hl1 hl2⟩
  | uns k0 off =>
    simp only [leafEqb, leafLtb, decide_eq_false_iff_not, decide_eq_true_eq] at *
    exact ⟨ne_of_lt (lt_trans hl1 hl2), lt_trans hl1 hl2⟩
  | f32 off => exact ⟨(fltOr_trans hl1 hl2).2, (fltOr_trans hl1 hl2).1⟩
  | f64 off => exact ⟨(fltOr_trans hl1 hl2).2, (fltOr_trans hl1 hl2).1⟩
  | str off =>
    simp only [leafEqb, leafLtb, decide_eq_false_iff_not] at *
    exact ⟨slt_ne (slt_trans hl1 hl2), slt_trans hl1 hl2⟩

theorem leaf_absorb_trans (m : Mem) (a0 s : Nat) (ℓ : Leaf) (i j k : Nat)
    (he1 : leafEqb m a0 s ℓ i j = false) (h1 : leafLtb m a0 s ℓ i j = false)
    (h1' : leafLtb m a0 s ℓ j i = false)
    (he2 : leafEqb m a0 s ℓ j k = false) (h2 : leafLtb m a0 s ℓ j k = false)
    (h2' : leafLtb m a0 s ℓ k j = false) :
    leafEqb m a0 s ℓ i k = false ∧ leafLtb m a0 s ℓ i k = false ∧
      leafLtb m a0 s ℓ k i = false := by
  cases ℓ with
  | bool off =>
    simp only [leafEqb, leafLtb, decide_eq_false_iff_not] at *
    cases hv : m.readBool (addr a0 s off i) with
    | false => exact absurd hv h1
    | true =>
      cases hw : m.readBool (addr a0 s off j) with
      | false => exact absurd hw h1'
      | true => exact absurd (hv.trans hw.symm) he1
  | sint k0 off =>
    simp only [leafEqb, leafLtb, decide_eq_false_iff_not] at *
    exact absurd (le_antisymm (not_lt.mp h1') (not_lt.mp h1)) he1
  | uns k0 off =>
    simp only [leafEqb, leafLtb, decide_eq_false_iff_not] at *
    exact absurd (le_antisymm (not_lt.mp h1') (not_lt.mp h1)) he1
  | f32 off =>
    obtain ⟨ha, hb⟩ := fltOr_absorb he1 h1 h1'
    obtain ⟨hb2, hc⟩ := fltOr_absorb he2 h2 h2'
    simp only [leafEqb, leafLtb] at *
    rw [ha, hc]
    exact ⟨rfl, rfl, rfl⟩
  | f64 off =>
    obtain ⟨ha, hb⟩ := fltOr_absorb he1 h1 h1'
    obtain ⟨hb2, hc⟩ := fltOr_absorb he2 h2 h2'
    simp only [leafEqb, leafLtb] at *
    rw [ha, hc]
    exact ⟨rfl, rfl, rfl⟩
  | str off =>
    simp only [leafEqb, leafLtb, decide_eq_false_iff_not] at *
    rcases slt_total he1 with h | h
    · exact absurd h (by simp [h1])
    · exact absurd h (by simp [h1'])

theorem chainP_irrefl (m : Mem) (a0 s : Nat) (L : List Leaf) (i : Nat) :
    chainP m a0 s L i i = false := by
  induction L with
  | nil => rfl
  | cons ℓ L ih =>
    rw [chainP]
    cases h : leafEqb m a0 s ℓ i i with
    | false => simpa using leaf_ii m a0 s ℓ i h
    | true => simpa using ih

theorem chainP_asymm (m : Mem) (a0 s : Nat) (L : List Leaf) (i j : Nat)
    (h : chainP m a0 s L i j = true) : chainP m a0 s L j i = false := by
  induction L with
  | nil => exact absurd h (by simp [chainP])
  | cons ℓ L ih =>
    rw [chainP] at h ⊢
    cases he : leafEqb m a0 s ℓ i j with
    | true =>
      rw [he] at h
      rw [leaf_eqb_symm m a0 s ℓ j i, he]
      simpa using ih (by simpa using h)
    | false =>
      rw [he] at h
      rw [leaf_eqb_symm m a0 s ℓ j i, he]
      simpa using leaf_asym m a0 s ℓ i j he (by simpa using h)

theorem chainP_trans (m : Mem) (a0 s : Nat) (L : List Leaf) (i j k : Nat)
    (h1 : chainP m a0 s L i j = true) (h2 : chainP m a0 s L j k = true) :
    chainP m a0 s L i k = true := by
  induction L with
  | nil => exact absurd h1 (by simp [chainP])
  | cons ℓ L ih =>
    rw [chainP] at h1 h2 ⊢
    cases he1 : leafEqb m a0 s ℓ i j with
    | true =>
      rw [he1] at h1
      obtain ⟨c1, c2, c3, c4⟩ := leaf_congr m a0 s ℓ i j he1 k
      cases he2 : leafEqb m a0 s ℓ j k with
      | true =>
        rw [he2] at h2
        rw [c1, he2]
        simpa using ih (by simpa using h1) (by simpa using h2)
      | false =>
        rw [he2] at h2
        rw [c1, he2, c3]
        simpa using h2
    | false =>
      rw [he1] at h1
      cases he2 : leafEqb m a0 s ℓ j k with
      | true =>
        rw [he2] at h2
        obtain ⟨c1, c2, c3, c4⟩ := leaf_congr m a0 s ℓ j k he2 i
        rw [← c2, he1, ← c4]
        simpa using h1
      | false =>
        rw [he2] at h2
        obtain ⟨hek, hlk⟩ :=
          leaf_lt_trans m a0 s ℓ i j k he1 (by simpa using h1) he2 (by simpa using h2)
        rw [hek]
        simpa using hlk

theorem chainP_incomp_trans (m : Mem) (a0 s : Nat) (L : List Leaf) (i j k : Nat)
    (h1 : chainP m a0 s L i j = false) (h1' : chainP m a0 s L j i = false)
    (h2 : chainP m a0 s L j k = false) (h2' : chainP m a0 s L k j = false) :
    chainP m a0 s L i k = false ∧ chainP m a0 s L k i = false := by
  induction L with
  | nil => exact ⟨rfl, rfl⟩
  | cons ℓ L ih =>
    simp only [chainP] at h1 h1' h2 h2' ⊢
    rw [leaf_eqb_symm m a0 s ℓ j i] at h1'
    rw [leaf_eqb_symm m a0 s ℓ k j] at h2'
    cases he1 : leafEqb m a0 s ℓ i j with
    | true =>
      rw [he1] at h1 h1'
      obtain ⟨c1, c2, c3, c4⟩ := leaf_congr m a0 s ℓ i j he1 k
      cases he2 : leafEqb m a0 s ℓ j k with
      | true =>
        rw [he2] at h2 h2'
        rw [c1, he2, leaf_eqb_symm m a0 s ℓ k i, c1, he2]
        exact ih (by simpa using h1) (by simpa using h1')
          (by simpa using h2) (by simpa using h2')
      | false =>
        rw [he2] at h2 h2'
        rw [c1, he2, leaf_eqb_symm m a0 s ℓ k i, c1, he2, c3, c4]
        exact ⟨by simpa using h2, by simpa using h2'⟩
    | false =>
      rw [he1] at h1 h1'
      cases he2 : leafEqb m a0 s ℓ j k with
      | true =>
        rw [he2] at h2 h2'
        obtain ⟨c1, c2, c3, c4⟩ := leaf_congr m a0 s ℓ j k he2 i
        rw [← c2, he1, leaf_eqb_symm m a0 s ℓ k i, ← c2, he1, ← c4, ← c3]
        exact ⟨by simpa using h1, by simpa using h1'⟩
      | false =>
        rw [he2] at h2 h2'
        obtain ⟨hek, hlik, hlki⟩ :=
          leaf_absorb_trans m a0 s ℓ i j k he1 (by simpa using h1) (by simpa using h1')
            he2 (by simpa using h2) (by simpa using h2')
        rw [hek, leaf_eqb_symm m a0 s ℓ k i, hek]
        exact ⟨by simpa using hlik, by simpa using hlki⟩

theorem bind_ok_id (x : Except BuildError (Option Less)) :
    (x >>= fun r => Except.ok r) = x := by
  cases x <;> rfl

theorem hasUnsupported_false_of_ne_true {t : Ty} (h : ¬hasUnsupported t = true) :
    hasUnsupported t = false := by
  cases hx : hasUnsupported t
  · rfl
  · exact absurd hx h

/-- Full case analysis of `Of`: non-slice arguments panic with
invalid-argument; an empty slice returns the nil predicate before any
decomposition; a non-empty slice either panics with unsupported-type
(exactly when a reachable leaf kind is unsupported) or returns the
flattened chain. -/
theorem Of_cases (m : Mem) (a0 : Nat) (t : Ty) (len : Nat) :
    (isSliceTy t = false ∧ Of m a0 t len = .error .invalidArgument) ∨
    (∃ esz et, t = .slice esz et ∧ len = 0 ∧ Of m a0 t len = .ok none) ∨
    (∃ esz et, t = .slice esz et ∧ len ≠ 0 ∧ hasUnsupported et = true ∧
      Of m a0 t len = .error .unsupportedType) ∨
    (∃ esz et, t = .slice esz et ∧ len ≠ 0 ∧ hasUnsupported et = false ∧
      Of m a0 t len = .ok (chainN m a0 esz (flatC 0 et) none)) := by
  cases t
  case slice esz et =>
    by_cases hl : len = 0
    · subst hl
      exact Or.inr (Or.inl ⟨esz, et, rfl, rfl, rfl⟩)
    · by_cases hu : hasUnsupported et = true
      · refine Or.inr (Or.inr (Or.inl ⟨esz, et, rfl, hl, hu, ?_⟩))
        rw [Of, if_neg hl]
        exact (goodT et m a0 esz 0 none).1 hu
      · refine Or.inr (Or.inr (Or.inr ⟨esz, et, rfl, hl, hasUnsupported_false_of_ne_true hu, ?_⟩))
        rw [Of, if_neg hl]
        exact (goodT et m a0 esz 0 none).2 (hasUnsupported_false_of_ne_true hu)
  all_goals exact Or.inl ⟨rfl, rfl⟩

/-- A successfully returned non-nil predicate is pointwise a flattened
leaf chain with empty continuation. -/
theorem of_ok_some (m : Mem) (a0 : Nat) (t : Ty) (len : Nat) (p : Less)
    (h : Of m a0 t len = .ok (some p)) :
    ∃ esz L, ∀ i j, p i j = chainP m a0 esz L i j := by
  rcases Of_cases m a0 t len with ⟨_, h'⟩ | ⟨esz, et, _, _, h'⟩ |
    ⟨esz, et, _, _, _, h'⟩ | ⟨esz, et, _, _, _, h'⟩
  · rw [h'] at h; exact absurd h (by simp)
  · rw [h'] at h; exact absurd h (by simp)
  · rw [h'] at h; exact absurd h (by simp)
  · rw [h'] at h
    have h2 : chainN m a0 esz (flatC 0 et) none = some p := by
      simpa using h
    refine ⟨esz, flatC 0 et, fun i j => ?_⟩
    have h3 := chainN_eval m a0 esz (flatC 0 et) i j
    rw [h2, optEval_some] at h3
    exact h3

/-- Leaves whose tie test succeeds for the pair are skipped by the chain. -/
theorem chainP_skip (m : Mem) (a0 s : Nat) (L1 L2 : List Leaf) (i j : Nat)
    (h : ∀ ℓ ∈ L1, leafEqb m a0 s ℓ i j = true) :
    chainP m a0 s (L1 ++ L2) i j = chainP m a0 s L2 i j := by
  induction L1 with
  | nil => rfl
  | cons ℓ L ih =>
    rw [List.cons_append, chainP, h ℓ (List.mem_cons_self ℓ L)]
    exact ih fun x hx => h x (List.mem_cons_of_mem ℓ hx)

/-- C7: when the builder is given a collection with zero elements it
returns the nil sentinel predicate (Go nil, modelled as `none`), which a
conforming sort routine never invokes; the zero-length branch of `Of`
returns before the element type is decomposed and before element 0's
address is taken, so the result is a constant independent of the memory
`m` and the base address `a0` (both universally quantified here). -/
theorem c7_empty_input (m : Mem) (a0 esz : Nat) (et : Ty) :
    Of m a0 (.slice esz et) 0 = .ok none := rfl

/-- C9: every predicate the builder returns on a supported non-empty
collection is asymmetric: `p i j` and `p j i` are never both true, and in
particular `p i i` is false for every index, including elements holding
NaN floating values (nothing in the hypotheses restricts the memory
contents). -/
theorem c9_asymmetric (m : Mem) (a0 : Nat) (t : Ty) (len : Nat) (p : Less)
    (h : Of m a0 t len = .ok (some p)) :
    (∀ i, p i i = false) ∧ (∀ i j, p i j = true → p j i = false) := by
  obtain ⟨esz, L, hp⟩ := of_ok_some m a0 t len p h
  constructor
  · intro i
    rw [hp]
    exact chainP_irrefl m a0 esz L i
  · intro i j hij
    rw [hp] at hij
    rw [hp]
    exact chainP_asymm m a0 esz L i j hij

theorem c9_asymmetric_witness :
    Of mC9 0 (.slice 8 .int) 2 = .ok (some pC9) ∧
    pC9 0 1 = true ∧ pC9 1 0 = false ∧ pC9 0 0 = false := by
  have h : Of mC9 0 (.slice 8 .int) 2 = .ok (some pC9) := by
    simp [Of, forAddr, pC9]
  exact ⟨h, by decide, (c9_asymmetric mC9 0 (.slice 8 .int) 2 pC9 h).2 0 1 (by decide),
    (c9_asymmetric mC9 0 (.slice 8 .int) 2 pC9 h).1 0⟩

/-- C10: every predicate the builder returns on a supported non-empty
collection is transitive, and incomparability under it is also
transitive, so together with asymmetry (claim C9) it is a strict weak
order satisfying the sort routine's less-than contract, NaN values
included. -/
theorem c10_strict_weak_order (m : Mem) (a0 : Nat) (t : Ty) (len : Nat) (p : Less)
    (h : Of m a0 t len = .ok (some p)) :
    (∀ i j k, p i j = true → p j k = true → p i k = true) ∧
    (∀ i j k, p i j = false → p j i = false → p j k = false → p k j = false →
      p i k = false ∧ p k i = false) := by
  obtain ⟨esz, L, hp⟩ := of_ok_some m a0 t len p h
  constructor
  · intro i j k h1 h2
    rw [hp] at h1 h2
    rw [hp]
    exact chainP_trans m a0 esz L i j k h1 h2
  · intro i j k h1 h2 h3 h4
    rw [hp] at h1 h2 h3 h4
    rw [hp i k, hp k i]
    exact chainP_incomp_trans m a0 esz L i j k h1 h2 h3 h4

theorem c10_strict_weak_order_witness :
    Of mC10 0 (.slice 8 .int) 5 = .ok (some pC10) ∧
    pC10 0 2 = true ∧ pC10 2 4 = false ∧ pC10 4 2 = false := by
  have h : Of mC10 0 (.slice 8 .int) 5 = .ok (some pC10) := by
    simp [Of, forAddr, pC10]
  refine ⟨h, (c10_strict_weak_order mC10 0 (.slice 8 .int) 5 pC10 h).1 0 1 2 (by decide) (by decide), ?_, ?_⟩
  · exact ((c10_strict_weak_order mC10 0 (.slice 8 .int) 5 pC10 h).2 2 3 4
      (by decide) (by decide) (by decide) (by decide)).1
  · exact ((c10_strict_weak_order mC10 0 (.slice 8 .int) 5 pC10 h).2 2 3 4
      (by decide) (by decide) (by decide) (by decide)).2

/-- C8: a boolean leaf comparator orders false strictly before true, and
on equal values defers to its continuation; the witness checks the
concrete collection [false, true, false, false, true] pairwise. -/
theorem c8_bool_order (m : Mem) (a0 s off : Nat) (k : Option Less) (i j : Nat) :
    (m.readBool (addr a0 s off i) = false → m.readBool (addr a0 s off j) = true →
      lessBool m a0 s off k i j = true) ∧
    (m.readBool (addr a0 s off i) = m.readBool (addr a0 s off j) →
      lessBool m a0 s off k i j = optEval k i j) ∧
    (m.readBool (addr a0 s off i) = true → m.readBool (addr a0 s off j) = false →
      lessBool m a0 s off k i j = false) := by
  refine ⟨fun h1 h2 => ?_, fun h => ?_, fun h1 h2 => ?_⟩
  · simp [lessBool, h1, h2]
  · simp [lessBool, h]
  · simp [lessBool, h1, h2]

theorem c8_bool_order_witness :
    lessBool mC8 0 1 0 none 0 1 = true ∧
    lessBool mC8 0 1 0 none 1 0 = false ∧
    lessBool mC8 0 1 0 none 2 3 = optEval none 2 3 ∧
    lessBool mC8 0 1 0 none 1 4 = optEval none 1 4 :=
  ⟨(c8_bool_order mC8 0 1 0 none 0 1).1 (by decide) (by decide),
    (c8_bool_order mC8 0 1 0 none 1 0).2.2 (by decide) (by decide),
    (c8_bool_order mC8 0 1 0 none 2 3).2.1 (by decide),
    (c8_bool_order mC8 0 1 0 none 1 4).2.1 (by decide)⟩

/-- C1 counterexample: the claim says a float leaf facing two NaN values
ties and defers to its continuation, so a record whose first field is NaN
in both elements is ordered by the following field.  In fact Go's `==`
is false on two NaNs, so `lessFloat64` returns false outright: with both
F fields NaN and B fields 2 (element 0) and 1 (element 1), the built
predicate reports element 1 not-less than element 0 (the claim requires
true via B), and a float leaf given the constant-true continuation still
returns false on a NaN/NaN pair. -/
theorem c1_counterexample :
    fIsNaN (mC1.readFloat64 (addr 0 16 0 0)) = true ∧
    fIsNaN (mC1.readFloat64 (addr 0 16 0 1)) = true ∧
    mC1.readInt64 (addr 0 16 8 1) < mC1.readInt64 (addr 0 16 8 0) ∧
    Of mC1 0 (.slice 16 tyC1) 2 = .ok (some pC1) ∧
    pC1 1 0 = false ∧ pC1 0 1 = false ∧
    lessFloat64 mC1 0 8 0 (some fun _ _ => true) 0 1 = false := by
  refine ⟨by decide, by decide, by decide, ?_, by decide, by decide, by decide⟩
  simp [Of, tyC1, forAddr, forFields, pC1, Bind.bind, Except.bind]

theorem fNaN_lt {a b : Flt} (h1 : fIsNaN a = true) (h2 : fIsNaN b = false) :
    feq a b = false ∧ fltOr a b = true := by
  cases a <;> cases b <;> simp_all [fIsNaN, feq, fltOr, flt]

theorem fNaN_pair {a b : Flt} (h1 : fIsNaN a = true) (h2 : fIsNaN b = true) :
    feq a b = false ∧ fltOr a b = false := by
  cases a <;> cases b <;> simp_all [fIsNaN, feq, fltOr, flt]

/-- C1 amended: in a float leaf comparator (either width), a NaN value
compares strictly less than any non-NaN value; but when both compared
values are NaN the leaf returns not-less immediately, without consulting
its continuation (the result is false for every `k`), so such a pair is
reported equivalent at that leaf and later fields are not consulted. -/
theorem c1_nan_amended (m : Mem) (a0 s off : Nat) (k : Option Less) (i j : Nat) :
    (fIsNaN (m.readFloat64 (addr a0 s off i)) = true →
      fIsNaN (m.readFloat64 (addr a0 s off j)) = false →
      lessFloat64 m a0 s off k i j = true) ∧
    (fIsNaN (m.readFloat64 (addr a0 s off i)) = true →
      fIsNaN (m.readFloat64 (addr a0 s off j)) = true →
      lessFloat64 m a0 s off k i j = false) ∧
    (fIsNaN (m.readFloat32 (addr a0 s off i)) = true →
      fIsNaN (m.readFloat32 (addr a0 s off j)) = false →
      lessFloat32 m a0 s off k i j = true) ∧
    (fIsNaN (m.readFloat32 (addr a0 s off i)) = true →
      fIsNaN (m.readFloat32 (addr a0 s off j)) = true →
      lessFloat32 m a0 s off k i j = false) := by
  refine ⟨fun h1 h2 => ?_, fun h1 h2 => ?_, fun h1 h2 => ?_, fun h1 h2 => ?_⟩
  · obtain ⟨he, hl⟩ := fNaN_lt h1 h2
    simp [lessFloat64, he, hl]
  · obtain ⟨he, hl⟩ := fNaN_pair h1 h2
    simp [lessFloat64, he, hl]
  · obtain ⟨he, hl⟩ := fNaN_lt h1 h2
    simp [lessFloat32, he, hl]
  · obtain ⟨he, hl⟩ := fNaN_pair h1 h2
    simp [lessFloat32, he, hl]

theorem c1_nan_amended_witness :
    lessFloat64 mC1W 0 8 0 none 0 1 = true ∧
    lessFloat64 mC1W 0 8 0 none 0 2 = false ∧
    lessFloat32 mC1W 0 8 0 none 0 1 = true ∧
    lessFloat32 mC1W 0 8 0 none 0 2 = false :=
  ⟨(c1_nan_amended mC1W 0 8 0 none 0 1).1 (by decide) (by decide),
    (c1_nan_amended mC1W 0 8 0 none 0 2).2.1 (by decide) (by decide),
    (c1_nan_amended mC1W 0 8 0 none 0 1).2.2.1 (by decide) (by decide),
    (c1_nan_amended mC1W 0 8 0 none 0 2).2.2.2 (by decide) (by decide)⟩

/-- C6: a complex leaf comparator compares the real components first under
the float rules (NaN rule included); on a real tie it compares the
imaginary components under the same rules; and the original continuation
is reached only when both components tie.  Stated for both complex widths
exactly as built by the source (real at `off`, imaginary at `off+8`
resp. `off+4`). -/
theorem c6_complex_order (m : Mem) (a0 s off : Nat) (k : Option Less) (i j : Nat) :
    (feq (m.readFloat64 (addr a0 s off i)) (m.readFloat64 (addr a0 s off j)) = false →
      lessComplex128 m a0 s off k i j =
        fltOr (m.readFloat64 (addr a0 s off i)) (m.readFloat64 (addr a0 s off j))) ∧
    (feq (m.readFloat64 (addr a0 s off i)) (m.readFloat64 (addr a0 s off j)) = true →
      feq (m.readFloat64 (addr a0 s (off + 8) i)) (m.readFloat64 (addr a0 s (off + 8) j)) = false →
      lessComplex128 m a0 s off k i j =
        fltOr (m.readFloat64 (addr a0 s (off + 8) i)) (m.readFloat64 (addr a0 s (off + 8) j))) ∧
    (feq (m.readFloat64 (addr a0 s off i)) (m.readFloat64 (addr a0 s off j)) = true →
      feq (m.readFloat64 (addr a0 s (off + 8) i)) (m.readFloat64 (addr a0 s (off + 8) j)) = true →
      lessComplex128 m a0 s off k i j = optEval k i j) ∧
    (feq (m.readFloat32 (addr a0 s off i)) (m.readFloat32 (addr a0 s off j)) = false →
      lessComplex64 m a0 s off k i j =
        fltOr (m.readFloat32 (addr a0 s off i)) (m.readFloat32 (addr a0 s off j))) ∧
    (feq (m.readFloat32 (addr a0 s off i)) (m.readFloat32 (addr a0 s off j)) = true →
      feq (m.readFloat32 (addr a0 s (off + 4) i)) (m.readFloat32 (addr a0 s (off + 4) j)) = false →
      lessComplex64 m a0 s off k i j =
        fltOr (m.readFloat32 (addr a0 s (off + 4) i)) (m.readFloat32 (addr a0 s (off + 4) j))) ∧
    (feq (m.readFloat32 (addr a0 s off i)) (m.readFloat32 (addr a0 s off j)) = true →
      feq (m.readFloat32 (addr a0 s (off + 4) i)) (m.readFloat32 (addr a0 s (off + 4) j)) = true →
      lessComplex64 m a0 s off k i j = optEval k i j) := by
  refine ⟨fun h1 => ?_, fun h1 h2 => ?_, fun h1 h2 => ?_,
    fun h1 => ?_, fun h1 h2 => ?_, fun h1 h2 => ?_⟩
  · simp [lessComplex128, lessFloat64, h1]
  · simp [lessComplex128, lessFloat64, h1, h2, optEval]
  · simp [lessComplex128, lessFloat64, h1, h2, optEval]
  · simp [lessComplex64, lessFloat32, h1]
  · simp [lessComplex64, lessFloat32, h1, h2, optEval]
  · simp [lessComplex64, lessFloat32, h1, h2, optEval]

theorem c6_complex_order_witness :
    lessComplex128 mC6 0 16 0 none 2 0 = true ∧
    lessComplex128 mC6 0 16 0 none 0 1 = true ∧
    lessComplex128 mC6 0 16 0 none 1 3 = true ∧
    lessComplex128 mC6 0 16 0 none 0 2 = false ∧
    lessComplex128 mC6 0 16 0 none 3 3 = false ∧
    lessComplex64 mC6 0 8 0 none 1 0 = true :=
  ⟨((c6_complex_order mC6 0 16 0 none 2 0).2.1 (by decide) (by decide)).trans (by decide),
    ((c6_complex_order mC6 0 16 0 none 0 1).1 (by decide)).trans (by decide),
    ((c6_complex_order mC6 0 16 0 none 1 3).2.1 (by decide) (by decide)).trans (by decide),
    ((c6_complex_order mC6 0 16 0 none 0 2).2.1 (by decide) (by decide)).trans (by decide),
    ((c6_complex_order mC6 0 16 0 none 3 3).2.2.1 (by decide) (by decide)).trans (by decide),
    ((c6_complex_order mC6 0 8 0 none 1 0).2.2.2.2.1 (by decide) (by decide)).trans (by decide)⟩

/-- C3 counterexample: the claim says the builder fails with the
unsupported-type error exactly when a reachable leaf kind is an interface
or nested slice.  But for an EMPTY slice of interface values `Of` returns
the nil predicate before decomposing the element type, although the
element type's own kind is the open interface kind. -/
theorem c3_counterexample :
    hasUnsupported Ty.interface = true ∧
    Of mem0 0 (.slice 1 .interface) 0 = .ok none :=
  ⟨by rw [hasUnsupported], rfl⟩

/-- C3 amended: the builder fails with invalid-argument exactly when the
argument is not a slice; it fails with unsupported-type exactly when the
argument is a NON-EMPTY slice whose element type reaches an interface or
nested-slice leaf (an empty slice skips validation entirely and returns
the nil sentinel); and these are the only two error kinds.  Validation
happens during decomposition: a returned predicate is a total function and
cannot fail at comparison time. -/
theorem c3_amended (m : Mem) (a0 : Nat) (t : Ty) (len : Nat) :
    (Of m a0 t len = .error .invalidArgument ↔ isSliceTy t = false) ∧
    (Of m a0 t len = .error .unsupportedType ↔
      ∃ esz et, t = .slice esz et ∧ len ≠ 0 ∧ hasUnsupported et = true) ∧
    (∀ e, Of m a0 t len = .error e →
      e = .invalidArgument ∨ e = .unsupportedType) := by
  rcases Of_cases m a0 t len with ⟨hs, h⟩ | ⟨esz, et, ht, hl, h⟩ |
    ⟨esz, et, ht, hl, hu, h⟩ | ⟨esz, et, ht, hl, hu, h⟩
  · refine ⟨⟨fun _ => hs, fun _ => h⟩, ⟨fun hx => ?_, ?_⟩, fun e he => Or.inl ?_⟩
    · exact absurd (h.symm.trans hx) (by simp)
    · rintro ⟨esz, et, het, -, -⟩
      subst het
      simp [isSliceTy] at hs
    · have h2 : BuildError.invalidArgument = e := by
        simpa using h.symm.trans he
      exact h2.symm
  · subst ht
    refine ⟨⟨fun hx => absurd (h.symm.trans hx) (by simp), fun hf => ?_⟩,
      ⟨fun hx => absurd (h.symm.trans hx) (by simp), ?_⟩,
      fun e he => absurd (h.symm.trans he) (by simp)⟩
    · simp [isSliceTy] at hf
    · rintro ⟨esz2, et2, -, hlen, -⟩
      exact absurd hl hlen
  · subst ht
    refine ⟨⟨fun hx => ?_, fun hf => ?_⟩,
      ⟨fun _ => ⟨esz, et, rfl, hl, hu⟩, fun _ => h⟩, fun e he => Or.inr ?_⟩
    · exact absurd (h.symm.trans hx) (by simp)
    · simp [isSliceTy] at hf
    · have h2 : BuildError.unsupportedType = e := by
        simpa using h.symm.trans he
      exact h2.symm
  · subst ht
    refine ⟨⟨fun hx => absurd (h.symm.trans hx) (by simp), fun hf => ?_⟩,
      ⟨fun hx => absurd (h.symm.trans hx) (by simp), ?_⟩,
      fun e he => absurd (h.symm.trans he) (by simp)⟩
    · simp [isSliceTy] at hf
    · rintro ⟨esz2, et2, het, -, hu2⟩
      injection het with hh1 hh2
      subst hh1
      subst hh2
      rw [hu] at hu2
      exact absurd hu2 (by simp)

theorem c3_amended_witness :
    Of mem0 0 Ty.int 3 = .error .invalidArgument ∧
    Of mem0 0 (.slice 1 .interface) 1 = .error .unsupportedType ∧
    (BuildError.invalidArgument = BuildError.invalidArgument ∨
      BuildError.invalidArgument = BuildError.unsupportedType) := by
  have h1 : Of mem0 0 Ty.int 3 = .error .invalidArgument :=
    (c3_amended mem0 0 Ty.int 3).1.mpr rfl
  refine ⟨h1, ?_, (c3_amended mem0 0 Ty.int 3).2.2 BuildError.invalidArgument h1⟩
  exact (c3_amended mem0 0 (.slice 1 .interface) 1).2.1.mpr
    ⟨1, .interface, rfl, by decide, by rw [hasUnsupported]⟩

/-- C4 counterexample: the claim says that for EVERY record type with
fields (A, B), a pair of elements with equal A values is ordered solely
by field B.  Two concrete record types refute it.  First, with a
composite-typed B = struct(C int64): A values are 5 and 5 (equal under
any reading), ordering by field B puts element 0 strictly first (its C is
1 vs 2, shown by the comparator reading C at its true offset 8 + 0), yet
the built predicate reports the elements equivalent both ways, because
the struct recursion drops B's offset (the C2 defect) and compares A
twice.  Second, with A = float64 holding NaN in both elements: the A leaf
reports the elements not-less both ways (an observational tie), ordering
by field B puts element 1 first (B is 2 vs 1), yet the built predicate
again reports equivalence both ways, because a NaN/NaN leaf decides
without deferring (per C1). -/
theorem c4_counterexample :
    Of mC4b 0 (.slice 16 tyC4b) 2 = .ok (some pC4b) ∧
    mC4b.readInt64 (addr 0 16 0 0) = mC4b.readInt64 (addr 0 16 0 1) ∧
    lessInt64 mC4b 0 16 (8 + 0) none 0 1 = true ∧
    pC4b 0 1 = false ∧ pC4b 1 0 = false ∧
    Of mC4n 0 (.slice 16 tyC4n) 2 = .ok (some pC4n) ∧
    fIsNaN (mC4n.readFloat64 (addr 0 16 0 0)) = true ∧
    fIsNaN (mC4n.readFloat64 (addr 0 16 0 1)) = true ∧
    lessFloat64 mC4n 0 16 0 none 0 1 = false ∧
    lessFloat64 mC4n 0 16 0 none 1 0 = false ∧
    lessInt64 mC4n 0 16 8 none 1 0 = true ∧
    pC4n 1 0 = false ∧ pC4n 0 1 = false := by
  refine ⟨?_, by decide, by decide, by decide, by decide, ?_, by decide, by decide,
    by decide, by decide, by decide, by decide, by decide⟩
  · simp [Of, tyC4b, forAddr, forFields, pC4b, Bind.bind, Except.bind]
  · simp [Of, tyC4n, forAddr, forFields, pC4n, Bind.bind, Except.bind]

/-- C4 amended: for a record type with two non-blank fields (A, B) of
supported types, and any pair of elements that tie on every leaf of field
A under the leaf comparators' own tie test (Go ==, so a NaN/NaN pair does
not tie, per C1), the built predicate coincides with the tie-breaker
chain built for field B alone - the chain of B's leaves at the offsets
the code assigns them.  For a primitively-typed B (as in the spec's
concrete example) that chain reads B at its declared offset and the pair
is ordered solely by field B; for a composite-typed B the chain reads the
offsets the C2 defect assigns.  The witness instantiates the concrete
records ("x", 2) and ("x", 1) from the spec's example, where the sorted
order puts element 1 first. -/
theorem c4_tiebreak (m : Mem) (a0 s off : Nat) (nA nB : String) (offA offB : Nat)
    (tA tB : Ty) (hA : ¬nA = "_") (hB : ¬nB = "_")
    (hsA : hasUnsupported tA = false) (hsB : hasUnsupported tB = false)
    (i j : Nat) (heq : ∀ ℓ ∈ flatC offA tA, leafEqb m a0 s ℓ i j = true)
    (r : Option Less)
    (hr : forAddr m a0 s off
      (.struct (.cons nA offA tA (.cons nB offB tB .nil))) none = .ok r) :
    optEval r i j = chainP m a0 s (flatC offB tB) i j := by
  have hu : hasUnsupported
      (Ty.struct (.cons nA offA tA (.cons nB offB tB .nil))) = false := by
    rw [hasUnsupported, fieldsHaveUnsupported, if_neg hA,
      fieldsHaveUnsupported, if_neg hB, fieldsHaveUnsupported]
    simp [hsA, hsB]
  have h2 := (goodT (Ty.struct (.cons nA offA tA (.cons nB offB tB .nil))) m a0 s off none).2 hu
  rw [h2] at hr
  have h3 : r = chainN m a0 s
      (flatC off (Ty.struct (.cons nA offA tA (.cons nB offB tB .nil)))) none := by
    simpa using hr.symm
  rw [h3, chainN_eval]
  rw [flatC, flatF, if_neg hA, flatF, if_neg hB, flatF, List.append_nil]
  exact chainP_skip m a0 s (flatC offA tA) (flatC offB tB) i j heq

theorem c4_tiebreak_witness :
    optEval (some pC4) 0 1 = chainP mC4 0 16 (flatC 8 .int) 0 1 ∧
    optEval (some pC4) 1 0 = chainP mC4 0 16 (flatC 8 .int) 1 0 ∧
    pC4 1 0 = true ∧ pC4 0 1 = false := by
  have hs01 : ∀ ℓ ∈ flatC 0 Ty.string, leafEqb mC4 0 16 ℓ 0 1 = true := by
    intro ℓ hl
    rw [flatC] at hl
    simp at hl
    subst hl
    decide
  have hs10 : ∀ ℓ ∈ flatC 0 Ty.string, leafEqb mC4 0 16 ℓ 1 0 = true := by
    intro ℓ hl
    rw [flatC] at hl
    simp at hl
    subst hl
    decide
  have hfa : forAddr mC4 0 16 0
      (.struct (.cons "A" 0 .string (.cons "B" 8 .int .nil))) none = .ok (some pC4) := by
    simp [forAddr, forFields, pC4, Bind.bind, Except.bind]
  refine ⟨c4_tiebreak mC4 0 16 0 "A" "B" 0 8 .string .int (by decide) (by decide)
      (by simp [hasUnsupported]) (by simp [hasUnsupported]) 0 1 hs01 (some pC4) hfa,
    c4_tiebreak mC4 0 16 0 "A" "B" 0 8 .string .int (by decide) (by decide)
      (by simp [hasUnsupported]) (by simp [hasUnsupported]) 1 0 hs10 (some pC4) hfa,
    by decide, by decide⟩

/-- C5: a blank-named record field contributes no leaf and does not
interrupt the tie-break linkage of its neighbours: for any three-field
layout (A, blank, B) the builder returns literally the same comparator as
for the layout with the blank field removed; and on the concrete elements
(A=1, blank=0, B=2) and (A=1, blank=99, B=2) the built predicate reports
neither element strictly less than the other. -/
theorem c5_discard_field :
    (∀ (m : Mem) (a0 s off : Nat) (k : Option Less) (nA : String) (offA : Nat)
      (tA : Ty) (offD : Nat) (tD : Ty) (nB : String) (offB : Nat) (tB : Ty),
      forAddr m a0 s off
          (.struct (.cons nA offA tA (.cons "_" offD tD (.cons nB offB tB .nil)))) k
        = forAddr m a0 s off (.struct (.cons nA offA tA (.cons nB offB tB .nil))) k) ∧
    forAddr mC5 0 12 0 tyC5 none = .ok (some pC5) ∧
    pC5 0 1 = false ∧ pC5 1 0 = false := by
  refine ⟨?_, ?_, by decide, by decide⟩
  · intro m a0 s off k nA offA tA offD tD nB offB tB
    have key : ∀ k2 : Option Less,
        forFields m a0 s (.cons "_" offD tD (.cons nB offB tB .nil)) k2
          = forFields m a0 s (.cons nB offB tB .nil) k2 := by
      intro k2
      rw [forFields]
      simp [bind_ok_id]
    conv_lhs => rw [forAddr, forFields]
    conv_rhs => rw [forAddr, forFields]
    rw [key]
  · simp [forAddr, forFields, tyC5, pC5, Bind.bind, Except.bind]

/-- C2 refutation (code bug): the claimed reference predicate reads each
leaf at the SUM of the offsets along its path; the source's struct and
array cases instead pass only the innermost offset, discarding the
incoming one.  For the nested record struct(A int64; B struct(C int64))
with A = 5 in both elements and C = 1 vs 2, the reference chain `refC2`
(offsets 0 and 8+0) orders element 0 before element 1, but the built
predicate compares offset 0 twice (never reading C) and reports the
elements equivalent. -/
theorem c2_nested_offset_divergence :
    Of mC2 0 (.slice 16 tyC2) 2 = .ok (some pC2) ∧
    mC2.readInt64 (addr 0 16 (8 + 0) 0) < mC2.readInt64 (addr 0 16 (8 + 0) 1) ∧
    chainP mC2 0 16 refC2 0 1 = true ∧
    pC2 0 1 = false ∧ pC2 1 0 = false := by
  refine ⟨?_, by decide, by decide, by decide, by decide⟩
  simp [Of, tyC2, forAddr, forFields, pC2, Bind.bind, Except.bind]

end Lesser
